import Mathlib

/-!
A shallow embedding of the rename-planning engine of the `f2` batch renamer
(file `src/internal/status/status.go` of the repository), together with proofs
about its conflict detection, numbering, ordering, apply and undo logic.

Strings are Go strings; all character-level helpers below are written by
structural recursion on `List Char` so that every definition evaluates inside
the kernel.  Go's `path/filepath` functions (`Clean`, `Join`, `Base`, `Dir`,
`Ext`) are standard-library collaborators of the code under verification and
are embedded here following their documented lexical algorithms (Plan 9 path
cleaning).  Only ASCII paths are at issue; Go compares strings bytewise and
Lean compares them by code point, which agree on ASCII.
-/

namespace F2

/-- Split a character list on `'/'` separators; `splitSlash "a/b" = ["a","b"]`,
keeping empty components (so `"a//b"` yields an empty middle component). -/
def splitSlash : List Char → List (List Char)
  | [] => [[]]
  | c :: rest =>
    if c = '/' then [] :: splitSlash rest
    else
      match splitSlash rest with
      | [] => [[c]]
      | g :: gs => (c :: g) :: gs

/-- Interleave `'/'` between path components. -/
def joinComps : List (List Char) → List Char
  | [] => []
  | [c] => c
  | c :: rest => c ++ '/' :: joinComps rest

/-- The component-stack step of Go path cleaning: push normal components,
let `..` pop a previous component (or survive at the head of a relative
path, or vanish at the root of a rooted one). -/
def cleanStack (rooted : Bool) : List (List Char) → List (List Char) → List (List Char)
  | st, [] => st
  | st, c :: rest =>
    if c = ['.', '.'] then
      match st with
      | [] => cleanStack rooted (if rooted then [] else [c]) rest
      | t :: st' =>
        if t = ['.', '.'] then cleanStack rooted (c :: t :: st') rest
        else cleanStack rooted st' rest
    else cleanStack rooted (c :: st) rest

/-- Embedding of Go `path/filepath.Clean` (unix rules): drop empty and `.`
components, resolve `..` lexically, keep a leading `/`, and return `.` for an
empty relative result. -/
def goCleanL (p : List Char) : List Char :=
  if p = [] then ['.']
  else
    let rooted : Bool := p.head? = some '/'
    let comps := (splitSlash p).filter fun c => ¬c = [] ∧ ¬c = ['.']
    let parts := (cleanStack rooted [] comps).reverse
    let joined := joinComps parts
    if rooted then '/' :: joined
    else if joined = [] then ['.'] else joined

/-- String wrapper for `goCleanL`. -/
def goClean (s : String) : String := String.mk (goCleanL s.data)

/-- Embedding of Go `filepath.Join` on two elements: empty elements are
skipped; a fully empty join is `""`; otherwise the elements are joined with
`/` and cleaned. -/
def goJoin (a b : String) : String :=
  if a = "" ∧ b = "" then ""
  else if a = "" then goClean b
  else if b = "" then goClean a
  else goClean (a ++ "/" ++ b)

/-- Embedding of Go `filepath.Base`: `""` gives `"."`, trailing slashes are
dropped, an all-slash path gives `"/"`, otherwise the last component. -/
def goBase (s : String) : String :=
  if s.data = [] then "."
  else
    let r := s.data.reverse.dropWhile (· = '/')
    if r = [] then "/"
    else String.mk (r.takeWhile (fun c => ¬c = '/')).reverse

/-- Embedding of Go `filepath.Dir`: everything up to and including the final
slash, cleaned; a slash-free path gives `"."`. -/
def goDir (s : String) : String :=
  goClean (String.mk (s.data.reverse.dropWhile (fun c => ¬c = '/')).reverse)

/-- Embedding of Go `filepath.Ext`: the suffix of the final component starting
at its last dot, or `""` when the final component has no dot. -/
def goExt (s : String) : String :=
  let fin := s.data.reverse.takeWhile (fun c => ¬c = '/')
  let upto := fin.takeWhile (fun c => ¬c = '.')
  if upto.length = fin.length then ""
  else String.mk ('.' :: upto.reverse)

/-- Whether the string contains a path separator (`strings.Contains(s, "/")`). -/
def containsSlash (s : String) : Bool := s.data.any (· = '/')

/-!
Numbering tokens.  The source declares

  `indexRegex = regexp.MustCompile("%([0-9]?)+d")`

which matches a percent sign, any run of ASCII digits, and a `d`.  `Replace`
uses `indexRegex.Find` (leftmost match), formats that token with
`fmt.Sprintf(string(b), startNumber+i)`, and then replaces every match of the
pattern in the string with the formatted value.  The two scanners below are
written as left-to-right automata: `pend = none` means no candidate token is
open, `pend = some ds` means a `%` followed by the digits `ds` has been read.
When a candidate fails, scanning resumes right after its `%`, which is what a
regex engine does; since digits cannot start or extend a match any other way,
reprocessing the buffered digits with `pend = none` is equivalent.
-/

/-- Leftmost match of the counter-token pattern; returns the digit run of the
first token, or `none` when the string has no token (`indexRegex.Find`). -/
def findTokGo (pend : Option (List Char)) : List Char → Option (List Char)
  | [] => none
  | c :: rest =>
    match pend with
    | none => if c = '%' then findTokGo (some []) rest else findTokGo none rest
    | some ds =>
      if c.isDigit then findTokGo (some (ds ++ [c])) rest
      else if c = 'd' then some ds
      else if c = '%' then findTokGo (some []) rest
      else findTokGo none rest

/-- Replace every (leftmost, non-overlapping) counter-token match by `r`
(`indexRegex.ReplaceAllString`; the formatted value contains no `$`, so Go's
template expansion of the replacement is the identity). -/
def repTokGo (r : List Char) (pend : Option (List Char)) : List Char → List Char
  | [] =>
    match pend with
    | none => []
    | some ds => '%' :: ds
  | c :: rest =>
    match pend with
    | none => if c = '%' then repTokGo r (some []) rest else c :: repTokGo r none rest
    | some ds =>
      if c.isDigit then repTokGo r (some (ds ++ [c])) rest
      else if c = 'd' then r ++ repTokGo r none rest
      else if c = '%' then '%' :: ds ++ repTokGo r (some []) rest
      else '%' :: ds ++ c :: repTokGo r none rest

/-- Digits-to-number helper for the width of a format token. -/
def natOfDigits (ds : List Char) : Nat :=
  ds.foldl (fun acc c => 10 * acc + (c.toNat - '0'.toNat)) 0

/-- Decimal rendering of a Go `int` (`strconv.Itoa` / `fmt.Sprintf("%d", ·)`
without width). -/
def intStr (n : Int) : String :=
  if n < 0 then "-" ++ Nat.repr n.natAbs else Nat.repr n.natAbs

/-- Width-padded decimal rendering of a Go `int`: with the zero flag the
padding goes between the sign and the digits, otherwise spaces go in front. -/
def padInt (zero : Bool) (width : Nat) (n : Int) : String :=
  let sign : List Char := if n < 0 then ['-'] else []
  let digits := (Nat.repr n.natAbs).data
  if width ≤ sign.length + digits.length then String.mk (sign ++ digits)
  else if zero then
    String.mk (sign ++ List.replicate (width - (sign.length + digits.length)) '0' ++ digits)
  else String.mk (List.replicate (width - (sign.length + digits.length)) ' ' ++ sign ++ digits)

/-- Embedding of `fmt.Sprintf` on a verb of the shape `%<digits>d` applied to
one integer: leading zeros of the digit run are zero-pad flags, the remaining
digits are the field width. -/
def sprintfTok (ds : List Char) (n : Int) : String :=
  padInt (decide (¬ds.takeWhile (· = '0') = [])) (natOfDigits (ds.dropWhile (· = '0'))) n

/-- The numbering step of `Operation.Replace`: if the expanded string matches
the counter pattern, format the first match with `startNumber + i` and
substitute it for every match. -/
def applyNumbering (str : String) (n : Int) : String :=
  match findTokGo none str.data with
  | none => str
  | some ds => String.mk (repTokGo (sprintfTok ds n).data none str.data)

/-!
Data model.  `Change` mirrors the Go struct of the same name.  A `GoConflict`
mirrors the `Conflict` struct (one or more implicated source paths plus the
colliding target).  The three buckets of the `op.conflicts` map are kept as
three lists; a key exists in the Go map exactly when the corresponding list
here is nonempty, because the code only ever appends nonempty entries.
`os.Stat` results are abstracted to three outcomes: success, a definite
does-not-exist error, and any other error.
-/

/-- Embedding of the Go struct `Change`. -/
structure Change where
  baseDir : String
  source : String
  target : String
  isDir : Bool
  deriving DecidableEq, Repr

/-- Embedding of the Go struct `Conflict`. -/
structure GoConflict where
  source : List String
  target : String
  deriving DecidableEq, Repr

/-- Outcome of an `os.Stat` call as the conflict detector distinguishes it:
`err == nil`, `errors.Is(err, os.ErrNotExist)`, or any other error. -/
inductive StatRes
  | found
  | notExist
  | otherErr
  deriving DecidableEq, Repr

/-- The full source path of a change (`filepath.Join(ch.BaseDir, ch.Source)`). -/
def fullSrc (ch : Change) : String := goJoin ch.baseDir ch.source

/-- The full target path of a change (`filepath.Join(ch.BaseDir, ch.Target)`). -/
def fullTgt (ch : Change) : String := goJoin ch.baseDir ch.target

/-- Stat function induced by a filesystem modelled as the set of its paths. -/
def statFS (fs : Finset String) (p : String) : StatRes :=
  if p ∈ fs then .found else .notExist

/-- The duplicate-target map `m` of `DetectConflicts`: each target path maps to
the (source path, match index) pairs that resolve to it.  Go map iteration
order is unspecified; it is modelled as first-insertion order, which only
fixes the order in which duplicate groups are reported. -/
abbrev TgtMap := List (String × List (String × Nat))

/-- Append an entry under a key, creating the key at the end on first use
(`m[target] = append(m[target], ...)`). -/
def mAdd : TgtMap → String → String × Nat → TgtMap
  | [], k, v => [(k, [v])]
  | (k', vs) :: rest, k, v =>
    if k' = k then (k', vs ++ [v]) :: rest else (k', vs) :: mAdd rest k v

/-- Keys of the duplicate-target map. -/
def mKeys (m : TgtMap) : List String := m.map Prod.fst

/-- Bounded search used by the spec model of `getNewPath` below. -/
def freshSuffix (ok : String → Bool) (stem ext : String) : Nat → Nat → String
  | 0, k => stem ++ "(" ++ Nat.repr k ++ ")" ++ ext
  | fuel + 1, k =>
    let cand := stem ++ "(" ++ Nat.repr k ++ ")" ++ ext
    if ok cand then cand else freshSuffix ok stem ext fuel (k + 1)

/-- Modelled from the spec: `getNewPath` is defined outside `src/` (only its
call sites appear in `status.go`); per the spec it generates a non-colliding
replacement target by appending an incrementing numeric suffix before the
extension until the candidate collides neither with the filesystem nor with
the in-memory set of already-resolved targets.  No claim depends on the exact
rendering; the suffix is modelled as `(k)` for `k = 2, 3, …`. -/
def getNewPath (stat : String → StatRes) (m : TgtMap) (target baseDir : String) : String :=
  let base := goBase target
  let ext := goExt base
  let stem := String.mk (base.data.take (base.data.length - ext.data.length))
  freshSuffix
    (fun cand =>
      let full := goJoin baseDir cand
      decide (stat full = .notExist) && decide (¬full ∈ mKeys m))
    stem ext 1000 2

/-- State produced by the first pass of `DetectConflicts`: the (possibly
auto-fixed) matches, the `emptyFilename` and `fileExists` buckets in report
order, and the duplicate-target map. -/
structure Pass1Out where
  matchList : List Change
  emptyB : List GoConflict
  existsB : List GoConflict
  m : TgtMap
  deriving DecidableEq, Repr

/-- First pass of `Operation.DetectConflicts`, translated from the range loop
over `op.matches`: an entry whose target is `"."` is reported as an empty
filename (auto-fix reverts the target to the source) and — via `continue` —
is never added to the duplicate-target map; otherwise a target whose stat
does not fail with a does-not-exist error is reported as `fileExists`
(auto-fix rewrites it through `getNewPath`), and the (possibly rewritten)
full target is recorded in the map together with the match index. -/
def detectPass1 (stat : String → StatRes) (fix : Bool) :
    List Change → Nat → TgtMap → Pass1Out
  | [], _, m => ⟨[], [], [], m⟩
  | ch :: rest, i, m =>
    let source := goJoin ch.baseDir ch.source
    let target0 := goJoin ch.baseDir ch.target
    if ch.target = "." then
      let ch' := if fix then { ch with target := ch.source } else ch
      let out := detectPass1 stat fix rest (i + 1) m
      ⟨ch' :: out.matchList, ⟨[source], target0⟩ :: out.emptyB, out.existsB, out.m⟩
    else
      let fixed : Change × String :=
        if ¬stat target0 = .notExist ∧ fix = true then
          let str := getNewPath stat [] target0 ch.baseDir
          ({ ch with target := str }, goJoin ch.baseDir str)
        else (ch, target0)
      let out := detectPass1 stat fix rest (i + 1) (mAdd m fixed.2 (source, i))
      ⟨fixed.1 :: out.matchList,
        out.emptyB,
        (if ¬stat target0 = .notExist then [GoConflict.mk [source] target0] else [])
          ++ out.existsB,
        out.m⟩

/-- Auto-fix of one duplicate-target group: every entry after the first gets a
fresh target from `getNewPath` (consulting the current map), the new full
path is registered in the map with an empty group, and the match list is
rewritten at the recorded index. -/
def fixGroup (stat : String → StatRes) (k : String) :
    List (String × Nat) → TgtMap → List Change → TgtMap × List Change
  | [], m, ms => (m, ms)
  | (_, idx) :: rest, m, ms =>
    match ms[idx]? with
    | none => fixGroup stat k rest m ms
    | some ch =>
      let str := getNewPath stat m k ch.baseDir
      let pt := goJoin ch.baseDir str
      let m' := if pt ∈ mKeys m then m else m ++ [(pt, [])]
      fixGroup stat k rest m' (ms.set idx { ch with target := str })

/-- Second pass of `Operation.DetectConflicts`: every group of the
duplicate-target map with more than one entry is reported as an
`overwritingNewPath` conflict listing all contributing sources; with auto-fix
on, the tail of the group is rewritten via `fixGroup`. -/
def detectPass2 (stat : String → StatRes) (fix : Bool) :
    List (String × List (String × Nat)) → TgtMap → List Change →
    List GoConflict × List Change
  | [], _, ms => ([], ms)
  | (k, v) :: rest, m, ms =>
    if 1 < v.length then
      let conf := GoConflict.mk (v.map Prod.fst) k
      let st := if fix then fixGroup stat k (v.drop 1) m ms else (m, ms)
      let out := detectPass2 stat fix rest st.1 st.2
      (conf :: out.1, out.2)
    else detectPass2 stat fix rest m ms

/-- Result of `Operation.DetectConflicts`: the final match list and the three
conflict buckets. -/
structure DetectOut where
  matchList : List Change
  emptyB : List GoConflict
  existsB : List GoConflict
  overB : List GoConflict
  deriving DecidableEq, Repr

/-- Embedding of `Operation.DetectConflicts`: the per-match pass followed by
the duplicate-target pass over the map it built. -/
def detectConflicts (stat : String → StatRes) (fix : Bool) (ms : List Change) :
    DetectOut :=
  let p1 := detectPass1 stat fix ms 0 []
  let p2 := detectPass2 stat fix p1.m p1.m p1.matchList
  ⟨p2.2, p1.emptyB, p1.existsB, p2.1⟩

/-- Whether `len(op.conflicts) > 0`: some bucket received an entry. -/
def hasConflicts (d : DetectOut) : Bool :=
  ¬d.emptyB = [] ∨ ¬d.existsB = [] ∨ ¬d.overB = []

/-!
Sorting.  Both `SortMatches` and `Undo` call `sort.SliceStable`.  For slices
of at most 20 elements (the block size of Go's stable sort) `sort.SliceStable`
is exactly one insertion-sort pass, and for a comparator that is a strict
weak order the insertion-sort result is the unique stable order for any
length; `goSliceStable` below is that insertion sort.  One insertion step
bubbles the new element left past exactly the maximal suffix of the already
processed prefix whose elements `y` satisfy `less x y`.

The comparator of `SortMatches` returns `true` whenever element `i` is not a
directory, regardless of `j` — it is not a strict weak order, so the
behaviour proved below is that of Go's concrete algorithm on small slices.
-/

/-- One insertion step of Go's stable insertion sort (`insertionSort_func`):
`x` moves left past the longest run of already-placed elements `y` with
`less x y`. -/
def goInsertStep (less : α → α → Bool) (acc : List α) (x : α) : List α :=
  (acc.reverse.dropWhile fun y => less x y).reverse
    ++ x :: (acc.reverse.takeWhile fun y => less x y).reverse

/-- Embedding of `sort.SliceStable` as insertion sort (exact for any length
under a strict-weak-order comparator and for length ≤ 20 in general). -/
def goSliceStable (less : α → α → Bool) (l : List α) : List α :=
  l.foldl (goInsertStep less) []

/-- Go's bytewise `<` on strings, on the character lists (equal to code-point
order on ASCII, the case at issue). -/
def strLtGo : List Char → List Char → Bool
  | [], [] => false
  | [], _ :: _ => true
  | _ :: _, [] => false
  | a :: as, b :: bs =>
    if a.toNat < b.toNat then true
    else if b.toNat < a.toNat then false
    else strLtGo as bs

/-- Go string comparison `s < t`. -/
def strLt (s t : String) : Bool := strLtGo s.data t.data

/-- The comparator of `Operation.SortMatches`: `true` when `i` is not a
directory, otherwise compare base directories with Go string `>`. -/
def sortMatchesLess (x y : Change) : Bool :=
  if x.isDir then strLt y.baseDir x.baseDir else true

/-- Embedding of `Operation.SortMatches`. -/
def sortMatches (ms : List Change) : List Change :=
  goSliceStable sortMatchesLess ms

/-- The comparator of the re-sort inside `Operation.Undo`: ascending base
directory. -/
def undoLess (x y : Change) : Bool := strLt x.baseDir y.baseDir

/-!
Apply.  The filesystem is modelled as the finite set of its existing paths;
`os.Rename(src, tgt)` moves the path `src` to `tgt` (failing when `src` does
not exist, silently replacing an existing `tgt`, as POSIX rename does for
files), and `os.MkdirAll(dir)` records the directory path.  Renaming a
directory in place moves only that path in this model, which is exact for
file entries; the round-trip theorem below is stated for batches of
slash-free targets so the `MkdirAll` branch is provably not taken.
-/

/-- A filesystem mutation performed by `Apply` in execute mode. -/
inductive FsAction
  | mkdirAll (dir : String)
  | rename (src tgt : String)
  deriving DecidableEq, Repr

/-- The rename loop of `Operation.Apply`, translated from the range over
`op.matches`: in execute mode each change joins its base directory with
source and target, creates intermediate directories when the relative target
contains a slash, and renames; the first failing rename aborts the batch with
an error, leaving earlier renames applied.  In dry-run mode the loop mutates
nothing. -/
def runRenames (exec : Bool) (fs : Finset String) :
    List Change → Finset String × List FsAction × Option String
  | [] => (fs, [], none)
  | ch :: rest =>
    if exec then
      let pre : Finset String × List FsAction :=
        if containsSlash ch.target then
          (insert (goDir ch.target) fs, [FsAction.mkdirAll (goDir ch.target)])
        else (fs, [])
      let source := goJoin ch.baseDir ch.source
      let target := goJoin ch.baseDir ch.target
      if source ∈ pre.1 then
        let out := runRenames exec (insert target (pre.1.erase source)) rest
        (out.1, pre.2 ++ FsAction.rename source target :: out.2.1, out.2.2)
      else
        (pre.1, pre.2, some ("An error occurred while renaming " ++ source ++ " to " ++ target))
    else (fs, [], none)

/-- Configuration of one operation as `Apply`/`Undo` consume it. -/
structure OpCfg where
  exec : Bool
  fixConflicts : Bool
  outputFile : String
  deriving DecidableEq, Repr

/-- The observable outcome of one `Apply` call. -/
structure ApplyOut where
  reported : Bool
  err : Option String
  fs : Finset String
  actions : List FsAction
  log : Option (List Change)
  matchList : List Change
  deriving DecidableEq

/-- Embedding of `Operation.Apply`: an empty match list is a successful no-op;
otherwise conflicts are detected (fixing them in place when requested); when
conflicts remain and auto-fix is off they are reported (`reported = true`
records the `ReportConflicts` call) and an error is returned before any
filesystem mutation; otherwise the rename loop runs, and after a fully
successful execute run with an output file configured the final match list is
persisted as the undo log. -/
def applyOp (cfg : OpCfg) (fs : Finset String) (ms : List Change) : ApplyOut :=
  if ms = [] then ⟨false, none, fs, [], none, ms⟩
  else
    let d := detectConflicts (statFS fs) cfg.fixConflicts ms
    if hasConflicts d ∧ cfg.fixConflicts = false then
      ⟨true, some "Conflict detected! Please resolve before proceeding", fs, [], none,
        d.matchList⟩
    else
      let out := runRenames cfg.exec fs d.matchList
      match out.2.2 with
      | some e => ⟨false, some e, out.1, out.2.1, none, d.matchList⟩
      | none =>
        let log :=
          if cfg.exec ∧ ¬d.matchList = [] ∧ ¬cfg.outputFile = "" then some d.matchList
          else none
        ⟨false, none, out.1, out.2.1, log, d.matchList⟩

/-- Embedding of `Operation.Undo` given the decoded contents of the undo log
(reading and JSON-decoding the file are external): swap source and target on
every entry, re-sort stably by ascending base directory, and re-enter
`Apply`. -/
def undoOp (cfg : OpCfg) (fs : Finset String) (log : List Change) : ApplyOut :=
  let swapped := log.map fun ch => { ch with source := ch.target, target := ch.source }
  let sorted := goSliceStable undoLess swapped
  applyOp cfg fs sorted

/-!
Replace.  `Operation.Replace` computes, for the match at position `i` of the
(already ordered) match list: the base name of the source; the substituted
string (regex replacement, or literal `strings.ReplaceAll` in string mode
without case folding); the expansion of template variables
(`op.handleVariables`, which consults the filesystem for timestamps and EXIF
data); the numbering substitution; and finally the target
`filepath.Join(dir, str)`.  The external regexp engine and the variable
expansion are collaborator boundaries and enter the model as the function
parameters `regexReplace` and `hv`; `strings.ReplaceAll` is embedded
directly.
-/

/-- Fuel-indexed embedding of Go `strings.ReplaceAll` (fuel `≥ length + 1`
makes it total; the wrapper supplies it). -/
def replaceAllLitFuel (old new : List Char) : Nat → List Char → List Char
  | 0, s => s
  | _ + 1, [] => if old = [] then new else []
  | fuel + 1, c :: rest =>
    if ¬old = [] ∧ old.isPrefixOf (c :: rest) then
      new ++ replaceAllLitFuel old new fuel ((c :: rest).drop old.length)
    else if old = [] then new ++ c :: replaceAllLitFuel old new fuel rest
    else c :: replaceAllLitFuel old new fuel rest

/-- Embedding of Go `strings.ReplaceAll(s, old, new)`. -/
def replaceAllLit (s old new : String) : String :=
  String.mk (replaceAllLitFuel old.data new.data (s.data.length + 1) s.data)

/-- Modelled from the spec: `filenameWithoutExtension` is defined outside
`src/`; per the spec (`{{f}}` resolves to the source filename without its
extension) it strips the `filepath.Ext` suffix from the name. -/
def filenameWithoutExtension (f : String) : String :=
  String.mk (f.data.take (f.data.length - (goExt f).data.length))

/-- Configuration and collaborator boundary of `Operation.Replace`:
`regexReplace` stands for `op.searchRegex.ReplaceAllString(·,
op.replaceString)` (the external RE2 engine), `hv` for
`op.handleVariables` (template expansion, which may fail with an I/O
error). -/
structure RepCfg where
  stringMode : Bool
  ignoreCase : Bool
  ignoreExt : Bool
  findString : String
  replaceString : String
  startNumber : Int
  regexReplace : String → String
  hv : String → Change → Except String String

/-- The substitution stage of `Replace` on one file name: regex replacement,
except in string mode without case folding, where it is a literal
`strings.ReplaceAll`. -/
def substStr (cfg : RepCfg) (fileName : String) : String :=
  if cfg.stringMode then
    if cfg.ignoreCase then cfg.regexReplace fileName
    else replaceAllLit fileName cfg.findString cfg.replaceString
  else cfg.regexReplace fileName

/-- Embedding of `Operation.Replace` from position `i` on: per match, take
the base name (extension stripped first when `ignoreExt`), substitute, expand
variables, fill the numbering token with `startNumber + i`, re-append the
extension when `ignoreExt`, and set the target to `filepath.Join(dir, str)`.
A variable-expansion failure aborts the whole call with its error. -/
def replaceGo (cfg : RepCfg) : Nat → List Change → Except String (List Change)
  | _, [] => .ok []
  | i, ch :: rest =>
    let fileName := goBase ch.source
    let dir := goDir ch.source
    let fileExt := goExt fileName
    let fileName := if cfg.ignoreExt then filenameWithoutExtension fileName else fileName
    match cfg.hv (substStr cfg fileName) ch with
    | .error e => .error e
    | .ok str =>
      let str := applyNumbering str (cfg.startNumber + i)
      let str := if cfg.ignoreExt then str ++ fileExt else str
      match replaceGo cfg (i + 1) rest with
      | .error e => .error e
      | .ok rest' => .ok ({ ch with target := goJoin dir str } :: rest')

/-!
EXIF expansion.  `replaceExifVariables` opens the source file (an I/O error
is the only failure), decodes its EXIF block into the `Exif` struct — decode
and JSON round-trip errors are deliberately swallowed, leaving the zero
value — and then, for every match of

  `exifRegex = {{exif\.(iso|et|fl|w|h|wh|make|model|lens|fnum)}}`

in the input, recompiles the matched text as a pattern (in which the dot is
an unescaped wildcard) and replaces all its occurrences by the field's
rendering.  Absent fields render as empty values, but the constant prefixes
and suffixes (`ISO`, `s`, `f`, `mm`) are attached outside the emptiness
checks.  The file-open outcome and the decoded struct are the collaborator
boundary and enter as parameters.
-/

/-- Embedding of the Go struct `Exif` (the JSON image of the decoded
metadata; the zero value stands for a failed or empty decode). -/
structure Exif where
  isoSpeedRatings : List Int := []
  make : String := ""
  model : String := ""
  exposureTime : List String := []
  focalLength : List String := []
  fNumber : List String := []
  imageWidth : List Int := []
  imageLength : List Int := []
  lensModel : String := ""
  deriving DecidableEq, Repr

/-- Modelled from the spec: `exifDivision` is defined outside `src/`; per the
spec it renders the first entry, a rational such as `"35/10"`, as a literal
number string, and an empty slice yields the empty string (the only case any
claim depends on). -/
def exifDivision (slice : List String) : String :=
  match slice with
  | [] => ""
  | s :: _ =>
    match s.data.splitOn '/' with
    | [a, b] =>
      match (String.mk a).toNat?, (String.mk b).toNat? with
      | some x, some y =>
        if y ≠ 0 ∧ x % y = 0 then Nat.repr (x / y)
        else String.mk a ++ "/" ++ String.mk b
      | _, _ => s
    | _ => s

/-- Replace `'/'` by `'_'` in a string (`strings.ReplaceAll(s, "/", "_")`,
specialised to a single-character pattern). -/
def slashToUnderscore (s : String) : String :=
  String.mk (s.data.map fun c => if c = '/' then '_' else c)

/-- The alternation of `exifRegex`, in source order. -/
def exifFields : List String :=
  ["iso", "et", "fl", "w", "h", "wh", "make", "model", "lens", "fnum"]

/-- The rendering of one EXIF field as the `switch` in
`replaceExifVariables` computes it. -/
def exifValue (d : Exif) (field : String) : String :=
  if field = "model" then slashToUnderscore d.model
  else if field = "lens" then slashToUnderscore d.lensModel
  else if field = "make" then d.make
  else if field = "iso" then
    "ISO" ++ (match d.isoSpeedRatings with | [] => "" | n :: _ => intStr n)
  else if field = "et" then
    (match d.exposureTime with | [] => "" | e :: _ => slashToUnderscore e) ++ "s"
  else if field = "fnum" then "f" ++ exifDivision d.fNumber
  else if field = "fl" then exifDivision d.focalLength ++ "mm"
  else if field = "wh" then
    match d.imageWidth, d.imageLength with
    | w :: _, h :: _ => intStr w ++ "x" ++ intStr h
    | _, _ => ""
  else if field = "h" then
    (match d.imageLength with | [] => "" | h :: _ => intStr h)
  else if field = "w" then
    (match d.imageWidth with | [] => "" | w :: _ => intStr w)
  else ""

/-- Match of an EXIF token at the head of the list: the literal prefix
`{{exif.`, a field of the alternation, and the literal `}}`; returns the
field and the token length. -/
def exifTokAt (s : List Char) : Option (String × Nat) :=
  if ("\x7b\x7bexif.".data.isPrefixOf s) then
    let rest := s.drop 7
    ((exifFields.filter fun f => (f.data ++ "\x7d\x7d".data).isPrefixOf rest).head?).map
      fun f => (f, 7 + f.data.length + 2)
  else none

/-- All matches of `exifRegex` in the input, in order, duplicates included
(`FindAllStringSubmatch`); returns the captured field names. -/
def exifFindAll : Nat → List Char → List String
  | 0, _ => []
  | _ + 1, [] => []
  | fuel + 1, c :: rest =>
    match exifTokAt (c :: rest) with
    | some (f, len) => f :: exifFindAll fuel ((c :: rest).drop len)
    | none => exifFindAll fuel rest

/-- Replace every occurrence of the recompiled token pattern
`{{exif<wildcard><field>}}` by `repl` (the dot of the matched text is an
unescaped wildcard when recompiled, so any character is accepted in its
position; the replacement string carries no `$`). -/
def replExifTok (field repl : List Char) : Nat → List Char → List Char
  | 0, s => s
  | _ + 1, [] => []
  | fuel + 1, c :: rest =>
    let s := c :: rest
    if ("\x7b\x7bexif".data.isPrefixOf s) ∧ ¬s.drop 6 = [] ∧
        ((field ++ "\x7d\x7d".data).isPrefixOf (s.drop 7)) then
      repl ++ replExifTok field repl fuel (s.drop (7 + field.length + 2))
    else c :: replExifTok field repl fuel rest

/-- Embedding of `replaceExifVariables`: fail only when the file cannot be
opened; otherwise substitute every found token by its field rendering.  (The
recompilation of a matched token as a pattern cannot fail, so the error
branch after `regexp.Compile` is dead.) -/
def replaceExifVariables (openErr : Option String) (d : Exif) (input : String) :
    Except String String :=
  match openErr with
  | some e => .error e
  | none =>
    let subs := exifFindAll (input.data.length + 1) input.data
    .ok (String.mk (subs.foldl
      (fun s f => replExifTok f.data (exifValue d f).data (s.length + 1) s)
      input.data))

/-- Zero-padding to width 3, stated from the spec's words (`%03d` yields the
value "zero-padded to width 3") for comparison with the code's formatter. -/
def specPad3 (k : Nat) : String :=
  let s := Nat.repr k
  if 3 ≤ s.data.length then s
  else String.mk (List.replicate (3 - s.data.length) '0' ++ s.data)

/-!
Helper lemmas.
-/

theorem strData_append (s t : String) : (s ++ t).data = s.data ++ t.data := by
  cases s
  cases t
  rfl

theorem statFS_ne_notExist (fs : Finset String) (p : String) :
    ¬statFS fs p = .notExist ↔ p ∈ fs := by
  by_cases h : p ∈ fs <;> simp [statFS, h]

theorem detectPass1_existsB (stat : String → StatRes) (fix : Bool) (ms : List Change)
    (i : Nat) (m : TgtMap) :
    (detectPass1 stat fix ms i m).existsB =
      ms.filterMap fun ch =>
        if ¬ch.target = "." ∧ ¬stat (fullTgt ch) = .notExist then
          some (GoConflict.mk [fullSrc ch] (fullTgt ch))
        else none := by
  induction ms generalizing i m with
  | nil => rfl
  | cons ch rest ih =>
    by_cases h1 : ch.target = "."
    · simp [detectPass1, h1, ih, List.filterMap_cons]
    · by_cases h2 : stat (goJoin ch.baseDir ch.target) = StatRes.notExist
      · simp [detectPass1, h1, h2, ih, List.filterMap_cons, fullSrc, fullTgt]
      · simp [detectPass1, h1, h2, ih, List.filterMap_cons, fullSrc, fullTgt]

theorem detectConflicts_existsB (stat : String → StatRes) (fix : Bool) (ms : List Change) :
    (detectConflicts stat fix ms).existsB =
      ms.filterMap fun ch =>
        if ¬ch.target = "." ∧ ¬stat (fullTgt ch) = .notExist then
          some (GoConflict.mk [fullSrc ch] (fullTgt ch))
        else none :=
  detectPass1_existsB stat fix ms 0 []

theorem existsB_mem_iff (stat : String → StatRes) (fix : Bool) (ms : List Change)
    (ch : Change) (hch : ch ∈ ms) (hdot : ¬ch.target = ".") :
    GoConflict.mk [fullSrc ch] (fullTgt ch) ∈ (detectConflicts stat fix ms).existsB ↔
      ¬stat (fullTgt ch) = .notExist := by
  rw [detectConflicts_existsB]
  constructor
  · intro hmem
    obtain ⟨ch', hch', he⟩ := List.mem_filterMap.1 hmem
    by_cases hc : ¬ch'.target = "." ∧ ¬stat (fullTgt ch') = .notExist
    · rw [if_pos hc] at he
      have ht : fullTgt ch' = fullTgt ch := congrArg GoConflict.target (Option.some.inj he)
      exact ht ▸ hc.2
    · rw [if_neg hc] at he
      exact Option.noConfusion he
  · intro hne
    exact List.mem_filterMap.2 ⟨ch, hch, by rw [if_pos ⟨hdot, hne⟩]⟩

/-!
Claims C1 and C9: the `TargetExists` check.
-/

/-- C1 (counterexample): the claim states that `TargetExists` is reported for
a change exactly when its full target path exists on the filesystem AND that
path is not the source of another change of the batch.  In the batch
`[a → b, b → c]` over a filesystem containing `a` and `b`, the target `b` of
the first change exists but is the second change's source, so the claim
predicts no conflict; the code reports one. -/
theorem c1_counterexample :
    ¬((GoConflict.mk ["a"] "b" ∈
        (detectConflicts (statFS {"a", "b"}) false
          [⟨".", "a", "b", false⟩, ⟨".", "b", "c", false⟩]).existsB) ↔
      ("b" ∈ ({"a", "b"} : Finset String) ∧
        ∀ ch ∈ [Change.mk "." "a" "b" false, Change.mk "." "b" "c" false],
          ¬fullSrc ch = "b")) := by
  decide

/-- C1 (amended): with auto-fix off, `DetectConflicts` reports a
`TargetExists` conflict for a change exactly when the stat of its full target
path does not yield a does-not-exist result — for a filesystem modelled as a
path set, exactly when the full target is on the filesystem — regardless of
whether that path is the source of another change in the batch. -/
theorem c1_target_exists_iff_on_fs (fs : Finset String) (ms : List Change)
    (ch : Change) (hch : ch ∈ ms) (hdot : ¬ch.target = ".") :
    GoConflict.mk [fullSrc ch] (fullTgt ch) ∈
        (detectConflicts (statFS fs) false ms).existsB ↔
      fullTgt ch ∈ fs := by
  rw [existsB_mem_iff (statFS fs) false ms ch hch hdot]
  exact statFS_ne_notExist fs (fullTgt ch)

theorem c1_witness :
    ((⟨".", "a", "b", false⟩ : Change) ∈
        [Change.mk "." "a" "b" false, Change.mk "." "b" "c" false] ∧
      ¬(Change.mk "." "a" "b" false).target = ".") ∧
    (GoConflict.mk [fullSrc ⟨".", "a", "b", false⟩] (fullTgt ⟨".", "a", "b", false⟩) ∈
        (detectConflicts (statFS {"a", "b"}) false
          [⟨".", "a", "b", false⟩, ⟨".", "b", "c", false⟩]).existsB ↔
      fullTgt (⟨".", "a", "b", false⟩ : Change) ∈ ({"a", "b"} : Finset String)) :=
  ⟨by decide,
    c1_target_exists_iff_on_fs {"a", "b"}
      [⟨".", "a", "b", false⟩, ⟨".", "b", "c", false⟩]
      ⟨".", "a", "b", false⟩ (by decide) (by decide)⟩

/-- C9: a change whose target is not the empty-name marker is classified as a
`fileExists` conflict exactly when `os.Stat` on its full target does not fail
with a does-not-exist error — in particular also when the stat fails with any
other error. -/
theorem c9_nonNotExist_is_conflict (stat : String → StatRes) (ms : List Change)
    (ch : Change) (hch : ch ∈ ms) (hdot : ¬ch.target = ".") :
    GoConflict.mk [fullSrc ch] (fullTgt ch) ∈ (detectConflicts stat false ms).existsB ↔
      ¬stat (fullTgt ch) = .notExist :=
  existsB_mem_iff stat false ms ch hch hdot

theorem c9_witness :
    ((⟨".", "a", "b", false⟩ : Change) ∈ [Change.mk "." "a" "b" false] ∧
      ¬(Change.mk "." "a" "b" false).target = "." ∧
      (fun p => if p = "b" then StatRes.otherErr else .notExist) (fullTgt ⟨".", "a", "b", false⟩) =
        .otherErr) ∧
    GoConflict.mk [fullSrc ⟨".", "a", "b", false⟩] (fullTgt ⟨".", "a", "b", false⟩) ∈
      (detectConflicts (fun p => if p = "b" then StatRes.otherErr else .notExist) false
        [⟨".", "a", "b", false⟩]).existsB :=
  ⟨by decide,
    (c9_nonNotExist_is_conflict (fun p => if p = "b" then StatRes.otherErr else .notExist)
      [⟨".", "a", "b", false⟩] ⟨".", "a", "b", false⟩ (by decide) (by decide)).mpr
      (by decide)⟩

/-!
Claim C2: EXIF tokens for absent metadata fields.
-/

/-- C2 (counterexample): the claim states that a token whose EXIF field is
absent expands to the empty string, naming iso, et, fl and fnum in
particular.  With no metadata at all, the iso token expands to the constant
prefix `ISO`, not to the empty string. -/
theorem c2_counterexample :
    replaceExifVariables none {} "\x7b\x7bexif.iso\x7d\x7d" = .ok "ISO" ∧
    ¬replaceExifVariables none {} "\x7b\x7bexif.iso\x7d\x7d" = .ok "" := by
  refine ⟨rfl, fun h => ?_⟩
  have h' : (Except.ok "ISO" : Except String String) = .ok "" := h
  simp at h'

/-- C2 (amended): when the requested EXIF field is absent its value renders
empty and expansion still succeeds, but the constant prefixes and suffixes
survive: iso, et, fl and fnum expand to `ISO`, `s`, `mm` and `f`
respectively, while absent make, model, lens, w, h and wh expand to the
empty string. -/
theorem c2_absent_fields_keep_affixes (d : Exif)
    (h1 : d.isoSpeedRatings = []) (h2 : d.exposureTime = [])
    (h3 : d.focalLength = []) (h4 : d.fNumber = [])
    (h5 : d.make = "") (h6 : d.model = "") (h7 : d.lensModel = "")
    (h8 : d.imageWidth = []) (h9 : d.imageLength = []) :
    replaceExifVariables none d
        "\x7b\x7bexif.iso\x7d\x7d|\x7b\x7bexif.et\x7d\x7d|\x7b\x7bexif.fl\x7d\x7d|\x7b\x7bexif.fnum\x7d\x7d" =
      .ok "ISO|s|mm|f" ∧
    replaceExifVariables none d
        "\x7b\x7bexif.make\x7d\x7d\x7b\x7bexif.model\x7d\x7d\x7b\x7bexif.lens\x7d\x7d\x7b\x7bexif.w\x7d\x7d\x7b\x7bexif.h\x7d\x7d\x7b\x7bexif.wh\x7d\x7d" =
      .ok "" := by
  obtain ⟨f1, f2, f3, f4, f5, f6, f7, f8, f9⟩ := d
  simp only at h1 h2 h3 h4 h5 h6 h7 h8 h9
  subst h1 h2 h3 h4 h5 h6 h7 h8 h9
  exact ⟨rfl, rfl⟩

theorem c2_witness :
    ((Exif.mk [] "" "" [] [] [] [] [] "").isoSpeedRatings = [] ∧
      (Exif.mk [] "" "" [] [] [] [] [] "").exposureTime = []) ∧
    (replaceExifVariables none (Exif.mk [] "" "" [] [] [] [] [] "")
        "\x7b\x7bexif.iso\x7d\x7d|\x7b\x7bexif.et\x7d\x7d|\x7b\x7bexif.fl\x7d\x7d|\x7b\x7bexif.fnum\x7d\x7d" =
      .ok "ISO|s|mm|f" ∧
    replaceExifVariables none (Exif.mk [] "" "" [] [] [] [] [] "")
        "\x7b\x7bexif.make\x7d\x7d\x7b\x7bexif.model\x7d\x7d\x7b\x7bexif.lens\x7d\x7d\x7b\x7bexif.w\x7d\x7d\x7b\x7bexif.h\x7d\x7d\x7b\x7bexif.wh\x7d\x7d" =
      .ok "") :=
  ⟨⟨rfl, rfl⟩,
    c2_absent_fields_keep_affixes (Exif.mk [] "" "" [] [] [] [] [] "")
      rfl rfl rfl rfl rfl rfl rfl rfl rfl⟩

/-!
Claims C3 and C5: conflict reporting and conflict refusal in `Apply`.
-/

/-- C3 (counterexample): the claim states that detected conflicts are always
printed whether or not auto-fix is enabled.  With auto-fix on, a batch with
an empty-filename conflict is fixed and applied without `ReportConflicts`
ever being called. -/
theorem c3_counterexample :
    hasConflicts
        (detectConflicts (statFS (∅ : Finset String)) true [⟨".", "a", ".", false⟩]) =
      true ∧
    (applyOp ⟨false, true, ""⟩ (∅ : Finset String) [⟨".", "a", ".", false⟩]).reported =
      false := by
  decide

/-- C3 (amended): `Apply` calls `ReportConflicts` exactly when conflicts were
detected and auto-fix is off; with auto-fix on, detected conflicts are fixed
silently and nothing is printed. -/
theorem c3_reported_iff (cfg : OpCfg) (fs : Finset String) (ms : List Change) :
    (applyOp cfg fs ms).reported = true ↔
      (hasConflicts (detectConflicts (statFS fs) cfg.fixConflicts ms) = true ∧
        cfg.fixConflicts = false) := by
  by_cases hms : ms = []
  · subst hms
    simp [applyOp, detectConflicts, detectPass1, detectPass2, hasConflicts]
  · unfold applyOp
    rw [if_neg hms]
    by_cases hc :
        hasConflicts (detectConflicts (statFS fs) cfg.fixConflicts ms) = true ∧
          cfg.fixConflicts = false
    · rw [if_pos hc]
      simpa using hc
    · rw [if_neg hc]
      rcases hrun :
          (runRenames cfg.exec fs
            (detectConflicts (statFS fs) cfg.fixConflicts ms).matchList).2.2 with _ | e
      · simp [hrun, hc]
      · simp [hrun, hc]

/-- C5: when conflicts are detected and auto-fix is off, `Apply` returns an
error, performs no filesystem action, and leaves the filesystem unchanged. -/
theorem c5_conflict_refusal (cfg : OpCfg) (fs : Finset String) (ms : List Change)
    (hfix : cfg.fixConflicts = false)
    (hc : hasConflicts (detectConflicts (statFS fs) cfg.fixConflicts ms) = true) :
    (applyOp cfg fs ms).err =
        some "Conflict detected! Please resolve before proceeding" ∧
      (applyOp cfg fs ms).actions = [] ∧ (applyOp cfg fs ms).fs = fs := by
  have hne : ¬ms = [] := by
    rintro rfl
    rw [show detectConflicts (statFS fs) cfg.fixConflicts [] = ⟨[], [], [], []⟩ from rfl] at hc
    exact absurd hc (by decide)
  unfold applyOp
  rw [if_neg hne, if_pos ⟨hc, hfix⟩]
  exact ⟨rfl, rfl, rfl⟩

theorem c5_witness :
    ((⟨false, false, ""⟩ : OpCfg).fixConflicts = false ∧
      hasConflicts
          (detectConflicts (statFS (∅ : Finset String)) false [⟨".", "a", ".", false⟩]) =
        true) ∧
    ((applyOp ⟨false, false, ""⟩ (∅ : Finset String) [⟨".", "a", ".", false⟩]).err =
        some "Conflict detected! Please resolve before proceeding" ∧
      (applyOp ⟨false, false, ""⟩ (∅ : Finset String) [⟨".", "a", ".", false⟩]).actions = [] ∧
      (applyOp ⟨false, false, ""⟩ (∅ : Finset String) [⟨".", "a", ".", false⟩]).fs = ∅) :=
  ⟨⟨rfl, by decide⟩,
    c5_conflict_refusal ⟨false, false, ""⟩ ∅ [⟨".", "a", ".", false⟩] rfl (by decide)⟩

/-!
Claim C4: `SortMatches`.
-/

/-- C4 (code-bug evidence): the comparator of `SortMatches` returns `true`
whenever its first argument is not a directory, which is not a strict weak
order.  Go's stable sort therefore (1) reverses two tied files, violating
stability, and (2) can place a directory with a lexicographically greater
base directory before a file, violating files-before-directories; the spec's
three-element directory example (file, then `/a/b`, then `/a`) does still
come out as stated. -/
theorem c4_sortMatches_violations :
    sortMatches [⟨"/a", "f1", "", false⟩, ⟨"/b", "f2", "", false⟩] =
      [⟨"/b", "f2", "", false⟩, ⟨"/a", "f1", "", false⟩] ∧
    sortMatches [⟨"/a", "f.txt", "", false⟩, ⟨"/z", "d", "", true⟩] =
      [⟨"/z", "d", "", true⟩, ⟨"/a", "f.txt", "", false⟩] ∧
    sortMatches [⟨"/", "a", "", true⟩, ⟨"/a", "b", "", true⟩, ⟨"/a/b", "f.txt", "", false⟩] =
      [⟨"/a/b", "f.txt", "", false⟩, ⟨"/a", "b", "", true⟩, ⟨"/", "a", "", true⟩] := by
  decide

/-!
Claim C7: visibility of the EmptyName auto-fix to the duplicate-target check.
-/

/-- C7 (counterexample): the claim states that a target reverted by the
EmptyName auto-fix participates in the duplicate-target grouping, so a second
match resolving to the same path is reported as FutureOverwrite.  In the
batch `[a → ".", b → a]` with auto-fix on and an empty filesystem, the fix
makes both matches resolve to `/d/a`, yet no overwriting conflict is
reported, because the `continue` of the empty-name branch skips the map
registration. -/
theorem c7_counterexample :
    (detectConflicts (fun _ => .notExist) true
        [⟨"/d", "a", ".", false⟩, ⟨"/d", "b", "a", false⟩]).matchList.map fullTgt =
      ["/d/a", "/d/a"] ∧
    (detectConflicts (fun _ => .notExist) true
        [⟨"/d", "a", ".", false⟩, ⟨"/d", "b", "a", false⟩]).overB = [] := by
  decide

/-- C7 (amended): the EmptyName auto-fix reverts the target to the source,
but the `continue` of that branch skips the duplicate-target map
registration, so the reverted target does NOT participate in the
FutureOverwrite grouping: a batch in which a second match resolves to the
reverted path produces two identical full targets and an empty
`overwritingNewPath` bucket. -/
theorem c7_empty_fix_invisible_to_duplicates (bd a b : String) (f1 f2 : Bool)
    (ha : ¬a = ".") :
    (detectConflicts (fun _ => .notExist) true
        [Change.mk bd a "." f1, Change.mk bd b a f2]).matchList =
      [Change.mk bd a a f1, Change.mk bd b a f2] ∧
    (detectConflicts (fun _ => .notExist) true
        [Change.mk bd a "." f1, Change.mk bd b a f2]).matchList.map fullTgt =
      [goJoin bd a, goJoin bd a] ∧
    (detectConflicts (fun _ => .notExist) true
        [Change.mk bd a "." f1, Change.mk bd b a f2]).overB = [] := by
  refine ⟨?_, ?_, ?_⟩ <;>
    simp [detectConflicts, detectPass1, detectPass2, mAdd, ha, fullTgt]

theorem c7_witness :
    ¬("a" : String) = "." ∧
    ((detectConflicts (fun _ => .notExist) true
        [Change.mk "/d" "a" "." false, Change.mk "/d" "b" "a" false]).matchList =
      [Change.mk "/d" "a" "a" false, Change.mk "/d" "b" "a" false] ∧
    (detectConflicts (fun _ => .notExist) true
        [Change.mk "/d" "a" "." false, Change.mk "/d" "b" "a" false]).matchList.map fullTgt =
      [goJoin "/d" "a", goJoin "/d" "a"] ∧
    (detectConflicts (fun _ => .notExist) true
        [Change.mk "/d" "a" "." false, Change.mk "/d" "b" "a" false]).overB = []) :=
  ⟨by decide, c7_empty_fix_invisible_to_duplicates "/d" "a" "b" false false (by decide)⟩

/-!
Counter-token lemmas for claims C6 and C10.
-/

theorem strMk_eq (l : List Char) (s : String) (h : s.data = l) : String.mk l = s := by
  cases s
  cases h
  rfl

theorem findTokGo_append_nopct (s a : List Char) (ha : ¬ '%' ∈ a) :
    findTokGo none (a ++ s) = findTokGo none s := by
  induction a with
  | nil => rfl
  | cons c a' ih =>
    have hc : ¬c = '%' := by intro h; exact ha (by simp [h])
    have ha' : ¬ '%' ∈ a' := by intro h; exact ha (by simp [h])
    simp only [List.cons_append, findTokGo, if_neg hc]
    exact ih ha'

theorem repTokGo_append_nopct (r s a : List Char) (ha : ¬ '%' ∈ a) :
    repTokGo r none (a ++ s) = a ++ repTokGo r none s := by
  induction a with
  | nil => rfl
  | cons c a' ih =>
    have hc : ¬c = '%' := by intro h; exact ha (by simp [h])
    have ha' : ¬ '%' ∈ a' := by intro h; exact ha (by simp [h])
    simp only [List.cons_append, repTokGo, if_neg hc]
    exact congrArg (List.cons c) (ih ha')

theorem repTokGo_nopct (r b : List Char) (hb : ¬ '%' ∈ b) :
    repTokGo r none b = b := by
  induction b with
  | nil => rfl
  | cons c b' ih =>
    have hc : ¬c = '%' := by intro h; exact hb (by simp [h])
    have hb' : ¬ '%' ∈ b' := by intro h; exact hb (by simp [h])
    simp only [repTokGo, if_neg hc]
    exact congrArg (List.cons c) (ih hb')

theorem findTokGo_tok03 (s : List Char) :
    findTokGo none ('%' :: '0' :: '3' :: 'd' :: s) = some ['0', '3'] := rfl

theorem findTokGo_tokd (s : List Char) :
    findTokGo none ('%' :: 'd' :: s) = some [] := rfl

theorem repTokGo_tok03 (r s : List Char) :
    repTokGo r none ('%' :: '0' :: '3' :: 'd' :: s) = r ++ repTokGo r none s := rfl

theorem repTokGo_tokd (r s : List Char) :
    repTokGo r none ('%' :: 'd' :: s) = r ++ repTokGo r none s := rfl

theorem sprintfTok_nil_eq_padInt (n : Int) : sprintfTok [] n = padInt false 0 n := rfl

theorem sprintfTok_03_eq_padInt (n : Int) : sprintfTok ['0', '3'] n = padInt true 3 n := rfl

theorem padInt_plain (n : Int) : padInt false 0 n = intStr n := by
  unfold padInt intStr
  by_cases hn : n < 0
  · simp only [if_pos hn]
    rw [if_pos (by simp : 0 ≤ (['-'] : List Char).length + (Nat.repr n.natAbs).data.length)]
    exact strMk_eq _ _ (by rw [strData_append])
  · simp only [if_neg hn]
    rw [if_pos (by simp : 0 ≤ ([] : List Char).length + (Nat.repr n.natAbs).data.length)]
    exact strMk_eq _ _ (by simp)

theorem padInt_zero3 (n : Int) (hn : 0 ≤ n) : padInt true 3 n = specPad3 n.toNat := by
  have he : n.natAbs = n.toNat := by omega
  have hneg : ¬n < 0 := by omega
  unfold padInt specPad3
  rw [he]
  simp only [if_neg hneg, List.nil_append, List.length_nil, Nat.zero_add]
  by_cases hlen : 3 ≤ (Nat.repr n.toNat).data.length
  · rw [if_pos hlen, if_pos hlen]
  · rw [if_neg hlen, if_neg hlen]
    simp

theorem sprintfTok_nil (n : Int) : sprintfTok [] n = intStr n :=
  (sprintfTok_nil_eq_padInt n).trans (padInt_plain n)

theorem sprintfTok_03 (n : Int) (hn : 0 ≤ n) :
    sprintfTok ['0', '3'] n = specPad3 n.toNat :=
  (sprintfTok_03_eq_padInt n).trans (padInt_zero3 n hn)

theorem applyNumbering_eq_of_find (str : String) (n : Int) (ds : List Char)
    (h : findTokGo none str.data = some ds) :
    applyNumbering str n = String.mk (repTokGo (sprintfTok ds n).data none str.data) := by
  unfold applyNumbering
  rw [h]

theorem applyNumbering_one03 (a b : String) (n : Int)
    (ha : ¬ '%' ∈ a.data) (hb : ¬ '%' ∈ b.data) :
    applyNumbering (a ++ "%03d" ++ b) n = a ++ sprintfTok ['0', '3'] n ++ b := by
  have hdata : (a ++ "%03d" ++ b).data = a.data ++ ('%' :: '0' :: '3' :: 'd' :: b.data) := by
    rw [strData_append, strData_append]
    simp
  have hfind : findTokGo none (a ++ "%03d" ++ b).data = some ['0', '3'] := by
    rw [hdata, findTokGo_append_nopct _ _ ha]
    exact findTokGo_tok03 b.data
  rw [applyNumbering_eq_of_find _ _ _ hfind, hdata,
    repTokGo_append_nopct _ _ _ ha, repTokGo_tok03, repTokGo_nopct _ _ hb]
  exact strMk_eq _ _ (by rw [strData_append, strData_append, List.append_assoc])

/-- C10: when the expanded replacement holds several counter tokens, only the
first token's format is filled, and every token occurrence is replaced by
that same single formatted value: `a%d b%03d c` becomes
`a<n> b<n> c` with the plain (unpadded) rendering of `n` in both places. -/
theorem c10_first_token_format_fills_all (a b c : String) (n : Int)
    (ha : ¬ '%' ∈ a.data) (hb : ¬ '%' ∈ b.data) (hc : ¬ '%' ∈ c.data) :
    applyNumbering (a ++ "%d" ++ b ++ "%03d" ++ c) n =
      a ++ intStr n ++ b ++ intStr n ++ c := by
  have hdata : (a ++ "%d" ++ b ++ "%03d" ++ c).data =
      a.data ++ ('%' :: 'd' :: (b.data ++ ('%' :: '0' :: '3' :: 'd' :: c.data))) := by
    rw [strData_append, strData_append, strData_append, strData_append]
    simp
  have hfind : findTokGo none (a ++ "%d" ++ b ++ "%03d" ++ c).data = some [] := by
    rw [hdata, findTokGo_append_nopct _ _ ha]
    exact findTokGo_tokd _
  rw [applyNumbering_eq_of_find _ _ _ hfind, hdata,
    repTokGo_append_nopct _ _ _ ha, repTokGo_tokd, repTokGo_append_nopct _ _ _ hb,
    repTokGo_tok03, repTokGo_nopct _ _ hc, sprintfTok_nil]
  refine strMk_eq _ _ ?_
  rw [strData_append, strData_append, strData_append, strData_append]
  simp

theorem replaceGo_cons_ok (cfg : RepCfg) (i : Nat) (ch : Change) (rest : List Change)
    (s : String)
    (hok : cfg.hv (substStr cfg
        (if cfg.ignoreExt then filenameWithoutExtension (goBase ch.source)
         else goBase ch.source)) ch = .ok s)
    (out' : List Change) (hrest : replaceGo cfg (i + 1) rest = .ok out') :
    replaceGo cfg i (ch :: rest) =
      .ok ({ ch with target := (goJoin (goDir ch.source)
        (if cfg.ignoreExt then
          applyNumbering s (cfg.startNumber + i) ++ goExt (goBase ch.source)
         else applyNumbering s (cfg.startNumber + i))) } :: out') := by
  unfold replaceGo
  dsimp only
  rw [hok, hrest]

theorem c6_aux (cfg : RepCfg) (A B : Nat → String) (hext : cfg.ignoreExt = false)
    (hS : 0 ≤ cfg.startNumber) :
    ∀ (ms : List Change) (i : Nat),
      (∀ j ch, ms[j]? = some ch →
        cfg.hv (substStr cfg (goBase ch.source)) ch =
            .ok (A (i + j) ++ "%03d" ++ B (i + j)) ∧
          ¬ '%' ∈ (A (i + j)).data ∧ ¬ '%' ∈ (B (i + j)).data) →
      ∃ out : List Change, replaceGo cfg i ms = .ok out ∧
        ∀ (j : Nat) (ch : Change), ms[j]? = some ch →
          out[j]? = some { ch with target := (goJoin (goDir ch.source)
            (A (i + j) ++ specPad3 (cfg.startNumber + (i + j)).toNat ++ B (i + j))) } := by
  intro ms
  induction ms with
  | nil =>
    intro i h
    exact ⟨[], rfl, fun j ch hj => by simp at hj⟩
  | cons ch rest ih =>
    intro i h
    obtain ⟨hok, hA, hB⟩ := h 0 ch (by simp)
    have hrest : ∀ j ch', rest[j]? = some ch' →
        cfg.hv (substStr cfg (goBase ch'.source)) ch' =
            .ok (A (i + 1 + j) ++ "%03d" ++ B (i + 1 + j)) ∧
          ¬ '%' ∈ (A (i + 1 + j)).data ∧ ¬ '%' ∈ (B (i + 1 + j)).data := by
      intro j ch' hj
      have hx := h (j + 1) ch' (by simpa using hj)
      have e : i + (j + 1) = i + 1 + j := by omega
      rw [e] at hx
      exact hx
    obtain ⟨out', hout', hspec⟩ := ih (i + 1) hrest
    have hfn : (if cfg.ignoreExt then filenameWithoutExtension (goBase ch.source)
        else goBase ch.source) = goBase ch.source := by
      simp [hext]
    have hok' : cfg.hv (substStr cfg
        (if cfg.ignoreExt then filenameWithoutExtension (goBase ch.source)
         else goBase ch.source)) ch = .ok (A (i + 0) ++ "%03d" ++ B (i + 0)) := by
      rw [hfn]
      exact hok
    have hnum : applyNumbering (A (i + 0) ++ "%03d" ++ B (i + 0)) (cfg.startNumber + i) =
        A (i + 0) ++ specPad3 (cfg.startNumber + (i + 0)).toNat ++ B (i + 0) := by
      rw [applyNumbering_one03 _ _ _ hA hB, sprintfTok_03 _ (by omega)]
      norm_num
    refine ⟨_, replaceGo_cons_ok cfg i ch rest _ hok' out' hout', ?_⟩
    intro j ch' hj
    rcases j with _ | j
    · simp only [List.getElem?_cons_zero, Option.some.injEq] at hj
      subst hj
      simp only [List.getElem?_cons_zero, Option.some.injEq]
      rw [hext]
      simp only [Bool.false_eq_true, if_false, hnum]
      norm_num
    · simp only [List.getElem?_cons_succ] at hj ⊢
      have hx := hspec j ch' hj
      have e : i + 1 + j = i + (j + 1) := by omega
      rw [e] at hx
      have e2 : (cfg.startNumber + ((i : Int) + 1 + (j : Int)) : Int) =
          cfg.startNumber + ((i : Int) + ((j : Int) + 1)) := by ring
      have e3 : ((i + 1 : Nat) : Int) + (j : Int) = (i : Int) + 1 + (j : Int) := by push_cast; ring
      rw [e3, e2] at hx
      have e4 : ((j + 1 : Nat) : Int) = (j : Int) + 1 := by push_cast; ring
      rw [e4]
      exact hx

/-- C6: for a batch whose replacement, after substitution and template
expansion, is `A j ++ "%03d" ++ B j` at list position `j` (a single counter
token `%03d`), `Replace` succeeds and the target at position `j` carries the
value `startNumber + j` zero-padded to width 3, so the batch is numbered
`S, S+1, …, S+N-1` in final match order. -/
theorem c6_counter_numbers_in_order (cfg : RepCfg) (ms : List Change) (A B : Nat → String)
    (hext : cfg.ignoreExt = false) (hS : 0 ≤ cfg.startNumber)
    (hhv : ∀ j ch, ms[j]? = some ch →
      cfg.hv (substStr cfg (goBase ch.source)) ch = .ok (A j ++ "%03d" ++ B j) ∧
        ¬ '%' ∈ (A j).data ∧ ¬ '%' ∈ (B j).data) :
    ∃ out : List Change, replaceGo cfg 0 ms = .ok out ∧
      ∀ (j : Nat) (ch : Change), ms[j]? = some ch →
        out[j]? = some { ch with target := (goJoin (goDir ch.source)
          (A j ++ specPad3 (cfg.startNumber + j).toNat ++ B j)) } := by
  have h := c6_aux cfg A B hext hS ms 0 (by intro j ch hj; simpa using hhv j ch hj)
  simpa using h

theorem c6_witness :
    ((⟨false, false, false, "", "", 2, fun _ => "img_%03d", fun s _ => .ok s⟩ :
        RepCfg).ignoreExt = false ∧
      (0 : Int) ≤ (⟨false, false, false, "", "", 2, fun _ => "img_%03d",
        fun s _ => .ok s⟩ : RepCfg).startNumber) ∧
    ∃ out : List Change,
      replaceGo
          (⟨false, false, false, "", "", 2, fun _ => "img_%03d", fun s _ => .ok s⟩ : RepCfg) 0
          [⟨".", "a.jpg", "", false⟩, ⟨".", "b.jpg", "", false⟩] = .ok out ∧
      ∀ (j : Nat) (ch : Change),
        [Change.mk "." "a.jpg" "" false, Change.mk "." "b.jpg" "" false][j]? = some ch →
        out[j]? = some { ch with target := (goJoin (goDir ch.source)
          ("img_" ++ specPad3 ((2 : Int) + j).toNat ++ "")) } := by
  refine ⟨⟨rfl, by decide⟩, ?_⟩
  refine c6_counter_numbers_in_order _ _ (fun _ => "img_") (fun _ => "") rfl (by decide) ?_
  intro j ch hj
  rcases j with _ | _ | j
  · simp only [List.getElem?_cons_zero, Option.some.injEq] at hj
    subst hj
    exact ⟨rfl, by decide, by decide⟩
  · simp only [List.getElem?_cons_succ, List.getElem?_cons_zero, Option.some.injEq] at hj
    subst hj
    exact ⟨rfl, by decide, by decide⟩
  · simp at hj

theorem c10_witness :
    (¬ '%' ∈ ("" : String).data ∧ ¬ '%' ∈ ("-" : String).data) ∧
    applyNumbering "%d-%03d" 5 = "5-5" ∧ ¬("5-5" : String) = "5-005" := by
  refine ⟨by decide, ?_, by decide⟩
  have h := c10_first_token_format_fills_all "" "-" "" 5 (by decide) (by decide) (by decide)
  have e1 : ("" : String) ++ "%d" ++ "-" ++ "%03d" ++ "" = "%d-%03d" := by decide
  have e2 : ("" : String) ++ intStr 5 ++ "-" ++ intStr 5 ++ "" = "5-5" := by decide
  rw [e1, e2] at h
  exact h

/-!
Lemmas for claim C8: permutation facts about the stable sort, the effect of
the execute loop on the filesystem, and conflict-freeness of clean batches.
-/

theorem goInsertStep_perm (less : α → α → Bool) (acc : List α) (x : α) :
    (goInsertStep less acc x).Perm (x :: acc) := by
  unfold goInsertStep
  refine List.Perm.trans List.perm_middle ?_
  refine List.Perm.cons x ?_
  rw [← List.reverse_append, List.takeWhile_append_dropWhile, List.reverse_reverse]

theorem goSliceStable_perm (less : α → α → Bool) (l : List α) :
    (goSliceStable less l).Perm l := by
  suffices h : ∀ (l acc : List α), (l.foldl (goInsertStep less) acc).Perm (l ++ acc) by
    simpa using h l []
  intro l
  induction l with
  | nil => intro acc; simp
  | cons x xs ih =>
    intro acc
    refine (ih (goInsertStep less acc x)).trans ?_
    refine (List.Perm.append_left xs (goInsertStep_perm less acc x)).trans ?_
    exact List.perm_middle

theorem runRenames_exec (l : List Change) : ∀ (fs : Finset String),
    (l.map fullSrc).Nodup → (l.map fullTgt).Nodup →
    (∀ ch ∈ l, fullSrc ch ∈ fs) → (∀ ch ∈ l, ¬fullTgt ch ∈ fs) →
    (∀ ch ∈ l, containsSlash ch.target = false) →
    (runRenames true fs l).2.2 = none ∧
      ∀ x : String, x ∈ (runRenames true fs l).1 ↔
        ((x ∈ fs ∧ ¬x ∈ l.map fullSrc) ∨ x ∈ l.map fullTgt) := by
  induction l with
  | nil =>
    intro fs _ _ _ _ _
    exact ⟨rfl, fun x => by simp [runRenames]⟩
  | cons ch rest ih =>
    intro fs hsnod htnod hs ht hsl
    have hsrc : fullSrc ch ∈ fs := hs ch (List.mem_cons_self _ _)
    have htgt : ¬fullTgt ch ∈ fs := ht ch (List.mem_cons_self _ _)
    have hslash : containsSlash ch.target = false := hsl ch (List.mem_cons_self _ _)
    rw [List.map_cons] at hsnod htnod
    obtain ⟨hs0', hsnod'⟩ := List.nodup_cons.1 hsnod
    obtain ⟨ht0', htnod'⟩ := List.nodup_cons.1 htnod
    have hs0 : ¬fullSrc ch ∈ rest.map fullSrc := hs0'
    have ht0 : ¬fullTgt ch ∈ rest.map fullTgt := ht0'
    have hsrcJ : goJoin ch.baseDir ch.source ∈ fs := hsrc
    have hstep : runRenames true fs (ch :: rest) =
        ((runRenames true (insert (fullTgt ch) (fs.erase (fullSrc ch))) rest).1,
          FsAction.rename (fullSrc ch) (fullTgt ch) ::
            (runRenames true (insert (fullTgt ch) (fs.erase (fullSrc ch))) rest).2.1,
          (runRenames true (insert (fullTgt ch) (fs.erase (fullSrc ch))) rest).2.2) := by
      simp only [runRenames]
      rw [hslash]
      simp [hsrcJ, fullSrc, fullTgt]
    have hs' : ∀ ch' ∈ rest, fullSrc ch' ∈ insert (fullTgt ch) (fs.erase (fullSrc ch)) := by
      intro ch' hch'
      have hne : ¬fullSrc ch' = fullSrc ch := by
        intro he
        exact hs0 (he ▸ List.mem_map_of_mem fullSrc hch')
      exact Finset.mem_insert_of_mem
        (Finset.mem_erase.2 ⟨hne, hs ch' (List.mem_cons_of_mem _ hch')⟩)
    have ht' : ∀ ch' ∈ rest, ¬fullTgt ch' ∈ insert (fullTgt ch) (fs.erase (fullSrc ch)) := by
      intro ch' hch' hmem
      rcases Finset.mem_insert.1 hmem with he | hin
      · exact ht0 (he ▸ List.mem_map_of_mem fullTgt hch')
      · exact ht ch' (List.mem_cons_of_mem _ hch') (Finset.mem_erase.1 hin).2
    have hsl' : ∀ ch' ∈ rest, containsSlash ch'.target = false := fun ch' hch' =>
      hsl ch' (List.mem_cons_of_mem _ hch')
    obtain ⟨e_ih, m_ih⟩ :=
      ih (insert (fullTgt ch) (fs.erase (fullSrc ch))) hsnod' htnod' hs' ht' hsl'
    have hrsub : ∀ x : String, x ∈ rest.map fullSrc → x ∈ fs := by
      intro x hx
      obtain ⟨ch', hch', rfl⟩ := List.mem_map.1 hx
      exact hs ch' (List.mem_cons_of_mem _ hch')
    constructor
    · rw [hstep]
      exact e_ih
    · intro x
      have h1 : (runRenames true fs (ch :: rest)).1 =
          (runRenames true (insert (fullTgt ch) (fs.erase (fullSrc ch))) rest).1 := by
        rw [hstep]
      rw [h1, m_ih x]
      simp only [Finset.mem_insert, Finset.mem_erase, List.map_cons, List.mem_cons]
      constructor
      · rintro (⟨he | ⟨hne, hfs⟩, hnin⟩ | h_t)
        · exact Or.inr (Or.inl he)
        · exact Or.inl ⟨hfs, by rw [not_or]; exact ⟨hne, hnin⟩⟩
        · exact Or.inr (Or.inr h_t)
      · rintro (⟨hfs, hnot⟩ | he | h_t)
        · rw [not_or] at hnot
          exact Or.inl ⟨Or.inr ⟨hnot.1, hfs⟩, hnot.2⟩
        · refine Or.inl ⟨Or.inl he, fun hx => ?_⟩
          exact htgt (he ▸ hrsub x hx)
        · exact Or.inr h_t

theorem mKeys_append (m : TgtMap) (p : String × List (String × Nat)) :
    mKeys (m ++ [p]) = mKeys m ++ [p.1] := by
  simp [mKeys]

theorem mAdd_not_mem (m : TgtMap) (k : String) (v : String × Nat)
    (h : ¬k ∈ mKeys m) : mAdd m k v = m ++ [(k, [v])] := by
  induction m with
  | nil => rfl
  | cons p rest ih =>
    obtain ⟨k', vs⟩ := p
    have hk : ¬k' = k := by
      intro he
      exact h (by simp [mKeys, he])
    have h' : ¬k ∈ mKeys rest := by
      intro he
      exact h (by simp [mKeys] at he ⊢; exact Or.inr he)
    simp only [mAdd, if_neg hk, List.cons_append]
    rw [ih h']

theorem detectPass1_nofix_matchList (stat : String → StatRes) (ms : List Change) :
    ∀ (i : Nat) (m : TgtMap), (detectPass1 stat false ms i m).matchList = ms := by
  induction ms with
  | nil => intro i m; rfl
  | cons ch rest ih =>
    intro i m
    by_cases h1 : ch.target = "."
    · simp [detectPass1, h1, ih]
    · simp [detectPass1, h1, ih]

theorem detectPass1_emptyB (stat : String → StatRes) (fix : Bool) (ms : List Change) :
    ∀ (i : Nat) (m : TgtMap),
      (detectPass1 stat fix ms i m).emptyB =
        ms.filterMap fun ch =>
          if ch.target = "." then some (GoConflict.mk [fullSrc ch] (fullTgt ch))
          else none := by
  induction ms with
  | nil => intro i m; rfl
  | cons ch rest ih =>
    intro i m
    by_cases h1 : ch.target = "."
    · simp [detectPass1, h1, ih, List.filterMap_cons, fullSrc, fullTgt]
    · simp [detectPass1, h1, ih, List.filterMap_cons]

theorem detectPass1_groups_small (stat : String → StatRes) (ms : List Change) :
    ∀ (i : Nat) (m₀ : TgtMap),
      (∀ ch ∈ ms, ¬ch.target = "." ∧ stat (fullTgt ch) = .notExist) →
      (∀ ch ∈ ms, ¬fullTgt ch ∈ mKeys m₀) →
      (ms.map fullTgt).Nodup →
      (∀ p ∈ m₀, p.2.length ≤ 1) →
      ∀ p ∈ (detectPass1 stat false ms i m₀).m, p.2.length ≤ 1 := by
  induction ms with
  | nil => intro i m₀ _ _ _ hm p hp; exact hm p hp
  | cons ch rest ih =>
    intro i m₀ hcond hkeys hnod hm
    have h1 : ¬ch.target = "." := (hcond ch (List.mem_cons_self _ _)).1
    have h2 : stat (goJoin ch.baseDir ch.target) = .notExist :=
      (hcond ch (List.mem_cons_self _ _)).2
    have hk0 : ¬fullTgt ch ∈ mKeys m₀ := hkeys ch (List.mem_cons_self _ _)
    have ht0 : ¬fullTgt ch ∈ rest.map fullTgt := (List.nodup_cons.1 (by simpa using hnod)).1
    have hmadd : mAdd m₀ (goJoin ch.baseDir ch.target) (goJoin ch.baseDir ch.source, i) =
        m₀ ++ [(goJoin ch.baseDir ch.target, [(goJoin ch.baseDir ch.source, i)])] :=
      mAdd_not_mem m₀ _ _ hk0
    have hres : (detectPass1 stat false (ch :: rest) i m₀).m =
        (detectPass1 stat false rest (i + 1)
          (m₀ ++ [(goJoin ch.baseDir ch.target, [(goJoin ch.baseDir ch.source, i)])])).m := by
      simp [detectPass1, h1, h2, hmadd]
    rw [hres]
    refine ih (i + 1) _ (fun c hc => hcond c (List.mem_cons_of_mem _ hc)) ?_
      ((List.nodup_cons.1 (by simpa using hnod)).2) ?_
    · intro c hc
      rw [mKeys_append]
      simp only [List.mem_append, List.mem_singleton]
      rintro (hin | he)
      · exact hkeys c (List.mem_cons_of_mem _ hc) hin
      · have he' : fullTgt c = fullTgt ch := he
        exact ht0 (he' ▸ List.mem_map_of_mem fullTgt hc)
    · intro p hp
      rcases List.mem_append.1 hp with hin | hone
      · exact hm p hin
      · simp only [List.mem_singleton] at hone
        subst hone
        simp

theorem detectPass2_no_groups (stat : String → StatRes) (fix : Bool)
    (snapshot : TgtMap) : ∀ (m : TgtMap) (ms : List Change),
      (∀ p ∈ snapshot, p.2.length ≤ 1) →
      detectPass2 stat fix snapshot m ms = ([], ms) := by
  induction snapshot with
  | nil => intro m ms _; rfl
  | cons p rest ih =>
    intro m ms h
    obtain ⟨k, v⟩ := p
    have hv : ¬1 < v.length := by
      have hkv : v.length ≤ 1 := h (k, v) (List.mem_cons_self _ _)
      omega
    simp only [detectPass2, if_neg hv]
    exact ih m ms fun q hq => h q (List.mem_cons_of_mem _ hq)

theorem detect_clean (stat : String → StatRes) (ms : List Change)
    (h1 : ∀ ch ∈ ms, ¬ch.target = "." ∧ stat (fullTgt ch) = .notExist)
    (h2 : (ms.map fullTgt).Nodup) :
    detectConflicts stat false ms = ⟨ms, [], [], []⟩ := by
  have hm : ∀ p ∈ (detectPass1 stat false ms 0 []).m, p.2.length ≤ 1 :=
    detectPass1_groups_small stat ms 0 [] h1 (fun ch _ => by simp [mKeys]) h2
      (fun p hp => absurd hp (List.not_mem_nil p))
  have hml : (detectPass1 stat false ms 0 []).matchList = ms :=
    detectPass1_nofix_matchList stat ms 0 []
  have he : (detectPass1 stat false ms 0 []).emptyB = [] := by
    rw [detectPass1_emptyB]
    rw [List.filterMap_eq_nil_iff]
    intro ch hch
    rw [if_neg (h1 ch hch).1]
  have hx : (detectPass1 stat false ms 0 []).existsB = [] := by
    rw [detectPass1_existsB]
    rw [List.filterMap_eq_nil_iff]
    intro ch hch
    rw [if_neg]
    rintro ⟨-, hne⟩
    exact hne (h1 ch hch).2
  have hdef : detectConflicts stat false ms =
      ⟨(detectPass2 stat false (detectPass1 stat false ms 0 []).m
          (detectPass1 stat false ms 0 []).m (detectPass1 stat false ms 0 []).matchList).2,
        (detectPass1 stat false ms 0 []).emptyB,
        (detectPass1 stat false ms 0 []).existsB,
        (detectPass2 stat false (detectPass1 stat false ms 0 []).m
          (detectPass1 stat false ms 0 []).m (detectPass1 stat false ms 0 []).matchList).1⟩ :=
    rfl
  rw [hdef, detectPass2_no_groups stat false _ _ _ hm]
  dsimp only
  rw [hml, he, hx]

theorem applyOp_clean (cfg : OpCfg) (fs : Finset String) (ms : List Change)
    (hexec : cfg.exec = true) (hout : ¬cfg.outputFile = "") (hne : ¬ms = [])
    (hclean : detectConflicts (statFS fs) cfg.fixConflicts ms = ⟨ms, [], [], []⟩)
    (hrun : (runRenames true fs ms).2.2 = none) :
    applyOp cfg fs ms =
      ⟨false, none, (runRenames true fs ms).1, (runRenames true fs ms).2.1,
        some ms, ms⟩ := by
  simp only [applyOp, hclean, hexec, hasConflicts, if_neg hne]
  simp [hrun, hne, hout]

/-- C8: for a batch with distinct sources on the filesystem and distinct,
fresh, slash-free targets, an execute run with logging succeeds, writes the
batch as its undo log, and `Undo` — which swaps source and target on every
entry, stably re-sorts by ascending base directory, and re-enters `Apply` —
succeeds and restores the filesystem to exactly its pre-run path set. -/
theorem c8_undo_round_trip (cfg : OpCfg) (fs₀ : Finset String) (ms : List Change)
    (hexec : cfg.exec = true) (hfix : cfg.fixConflicts = false)
    (hout : ¬cfg.outputFile = "") (hne : ¬ms = [])
    (hsnod : (ms.map fullSrc).Nodup) (htnod : (ms.map fullTgt).Nodup)
    (hsrc : ∀ ch ∈ ms, fullSrc ch ∈ fs₀) (htgt : ∀ ch ∈ ms, ¬fullTgt ch ∈ fs₀)
    (hdot : ∀ ch ∈ ms, ¬ch.target = "." ∧ ¬ch.source = ".")
    (hslash : ∀ ch ∈ ms,
      containsSlash ch.target = false ∧ containsSlash ch.source = false) :
    (applyOp cfg fs₀ ms).err = none ∧ (applyOp cfg fs₀ ms).log = some ms ∧
      (undoOp cfg (applyOp cfg fs₀ ms).fs ms).err = none ∧
      (undoOp cfg (applyOp cfg fs₀ ms).fs ms).fs = fs₀ := by
  have hsub : ∀ x : String, x ∈ ms.map fullSrc → x ∈ fs₀ := by
    intro x hx
    obtain ⟨ch, hch, rfl⟩ := List.mem_map.1 hx
    exact hsrc ch hch
  have hdis : ∀ x : String, x ∈ ms.map fullTgt → ¬x ∈ fs₀ := by
    intro x hx
    obtain ⟨ch, hch, rfl⟩ := List.mem_map.1 hx
    exact htgt ch hch
  have hclean1 : detectConflicts (statFS fs₀) cfg.fixConflicts ms = ⟨ms, [], [], []⟩ := by
    rw [hfix]
    refine detect_clean _ ms (fun ch hch => ⟨(hdot ch hch).1, ?_⟩) htnod
    unfold statFS
    rw [if_neg (htgt ch hch)]
  obtain ⟨hrun1, hmem1⟩ :=
    runRenames_exec ms fs₀ hsnod htnod hsrc htgt (fun ch hch => (hslash ch hch).1)
  have happ1 := applyOp_clean cfg fs₀ ms hexec hout hne hclean1 hrun1
  -- the swapped and re-sorted undo batch
  have hswsrc : (ms.map fun ch =>
      ({ ch with source := ch.target, target := ch.source } : Change)).map fullSrc =
      ms.map fullTgt := by
    rw [List.map_map]
    rfl
  have hswtgt : (ms.map fun ch =>
      ({ ch with source := ch.target, target := ch.source } : Change)).map fullTgt =
      ms.map fullSrc := by
    rw [List.map_map]
    rfl
  have hperm : (goSliceStable undoLess (ms.map fun ch =>
      ({ ch with source := ch.target, target := ch.source } : Change))).Perm
      (ms.map fun ch => ({ ch with source := ch.target, target := ch.source } : Change)) :=
    goSliceStable_perm _ _
  have hpsrc : ((goSliceStable undoLess (ms.map fun ch =>
      ({ ch with source := ch.target, target := ch.source } : Change))).map fullSrc).Perm
      (ms.map fullTgt) := by
    rw [← hswsrc]
    exact hperm.map fullSrc
  have hptgt : ((goSliceStable undoLess (ms.map fun ch =>
      ({ ch with source := ch.target, target := ch.source } : Change))).map fullTgt).Perm
      (ms.map fullSrc) := by
    rw [← hswtgt]
    exact hperm.map fullTgt
  set fs₁ := (runRenames true fs₀ ms).1 with hfs₁
  set sorted := goSliceStable undoLess (ms.map fun ch =>
    ({ ch with source := ch.target, target := ch.source } : Change)) with hsortdef
  have hsortedelem : ∀ ch' ∈ sorted, ∃ ch ∈ ms,
      ch' = { ch with source := ch.target, target := ch.source } := by
    intro ch' h'
    have : ch' ∈ ms.map fun ch =>
        ({ ch with source := ch.target, target := ch.source } : Change) :=
      hperm.mem_iff.1 h'
    obtain ⟨ch, hch, he⟩ := List.mem_map.1 this
    exact ⟨ch, hch, he.symm⟩
  have hs2 : ∀ ch' ∈ sorted, fullSrc ch' ∈ fs₁ := by
    intro ch' h'
    have hx : fullSrc ch' ∈ ms.map fullTgt :=
      hpsrc.mem_iff.1 (List.mem_map_of_mem fullSrc h')
    exact (hmem1 _).2 (Or.inr hx)
  have ht2 : ∀ ch' ∈ sorted, ¬fullTgt ch' ∈ fs₁ := by
    intro ch' h' hmem
    have hx : fullTgt ch' ∈ ms.map fullSrc :=
      hptgt.mem_iff.1 (List.mem_map_of_mem fullTgt h')
    rcases (hmem1 _).1 hmem with ⟨-, hnin⟩ | hin
    · exact hnin hx
    · exact hdis _ hin (hsub _ hx)
  have hsnod2 : (sorted.map fullSrc).Nodup := hpsrc.nodup_iff.2 htnod
  have htnod2 : (sorted.map fullTgt).Nodup := hptgt.nodup_iff.2 hsnod
  have hdot2 : ∀ ch' ∈ sorted, ¬ch'.target = "." := by
    intro ch' h'
    obtain ⟨ch, hch, rfl⟩ := hsortedelem ch' h'
    exact (hdot ch hch).2
  have hslash2 : ∀ ch' ∈ sorted, containsSlash ch'.target = false := by
    intro ch' h'
    obtain ⟨ch, hch, rfl⟩ := hsortedelem ch' h'
    exact (hslash ch hch).2
  have hne2 : ¬sorted = [] := by
    intro he
    apply hne
    have hlen := hperm.length_eq
    rw [he] at hlen
    simp only [List.length_nil, List.length_map] at hlen
    exact List.length_eq_zero.1 hlen.symm
  have hclean2 : detectConflicts (statFS fs₁) cfg.fixConflicts sorted =
      ⟨sorted, [], [], []⟩ := by
    rw [hfix]
    refine detect_clean _ sorted (fun ch' hch' => ⟨hdot2 ch' hch', ?_⟩) htnod2
    unfold statFS
    rw [if_neg (ht2 ch' hch')]
  obtain ⟨hrun2, hmem2⟩ := runRenames_exec sorted fs₁ hsnod2 htnod2 hs2 ht2 hslash2
  have happ2 := applyOp_clean cfg fs₁ sorted hexec hout hne2 hclean2 hrun2
  have hundo : undoOp cfg fs₁ ms = applyOp cfg fs₁ sorted := rfl
  refine ⟨by rw [happ1], by rw [happ1], ?_, ?_⟩
  · rw [happ1]
    show (undoOp cfg fs₁ ms).err = none
    rw [hundo, happ2]
  · rw [happ1]
    show (undoOp cfg fs₁ ms).fs = fs₀
    rw [hundo, happ2]
    show (runRenames true fs₁ sorted).1 = fs₀
    apply Finset.ext
    intro x
    rw [hmem2 x]
    have e1 : x ∈ sorted.map fullSrc ↔ x ∈ ms.map fullTgt := hpsrc.mem_iff
    have e2 : x ∈ sorted.map fullTgt ↔ x ∈ ms.map fullSrc := hptgt.mem_iff
    rw [e1, e2, hmem1 x]
    constructor
    · rintro (⟨⟨hfs, -⟩ | ht, hnt⟩ | hsx)
      · exact hfs
      · exact absurd ht hnt
      · exact hsub _ hsx
    · intro hx
      by_cases hsx : x ∈ ms.map fullSrc
      · exact Or.inr hsx
      · exact Or.inl ⟨Or.inl ⟨hx, hsx⟩, fun ht => hdis _ ht hx⟩

theorem c8_witness :
    ((([(⟨".", "a", "x", false⟩ : Change), ⟨".", "b", "y", false⟩].map fullSrc).Nodup ∧
      ([(⟨".", "a", "x", false⟩ : Change), ⟨".", "b", "y", false⟩].map fullTgt).Nodup) ∧
      (∀ ch ∈ [(⟨".", "a", "x", false⟩ : Change), ⟨".", "b", "y", false⟩],
        fullSrc ch ∈ ({"a", "b"} : Finset String)) ∧
      (∀ ch ∈ [(⟨".", "a", "x", false⟩ : Change), ⟨".", "b", "y", false⟩],
        ¬fullTgt ch ∈ ({"a", "b"} : Finset String))) ∧
    ((applyOp ⟨true, false, "log.json"⟩ {"a", "b"}
        [⟨".", "a", "x", false⟩, ⟨".", "b", "y", false⟩]).err = none ∧
      (applyOp ⟨true, false, "log.json"⟩ {"a", "b"}
        [⟨".", "a", "x", false⟩, ⟨".", "b", "y", false⟩]).log =
          some [⟨".", "a", "x", false⟩, ⟨".", "b", "y", false⟩] ∧
      (undoOp ⟨true, false, "log.json"⟩
        (applyOp ⟨true, false, "log.json"⟩ {"a", "b"}
          [⟨".", "a", "x", false⟩, ⟨".", "b", "y", false⟩]).fs
        [⟨".", "a", "x", false⟩, ⟨".", "b", "y", false⟩]).err = none ∧
      (undoOp ⟨true, false, "log.json"⟩
        (applyOp ⟨true, false, "log.json"⟩ {"a", "b"}
          [⟨".", "a", "x", false⟩, ⟨".", "b", "y", false⟩]).fs
        [⟨".", "a", "x", false⟩, ⟨".", "b", "y", false⟩]).fs = {"a", "b"}) :=
  ⟨⟨⟨by decide, by decide⟩, by decide, by decide⟩,
    c8_undo_round_trip ⟨true, false, "log.json"⟩ {"a", "b"}
      [⟨".", "a", "x", false⟩, ⟨".", "b", "y", false⟩]
      rfl rfl (by decide) (by decide) (by decide) (by decide) (by decide) (by decide)
      (by decide) (by decide)⟩

/-!
Model validation: concrete evaluations of the embedded functions, checked
against the behaviour of the Go originals.
-/

theorem goClean_cases :
    goClean "./b" = "b" ∧ goClean "." = "." ∧ goClean "" = "." ∧
    goClean "a//b/" = "a/b" ∧ goClean "a/../b" = "b" ∧ goClean "../a" = "../a" ∧
    goClean "/.." = "/" := by decide

theorem goJoin_cases :
    goJoin "." "b" = "b" ∧ goJoin "." "" = "." ∧ goJoin "/a" "b" = "/a/b" := by decide

theorem goBase_goDir_goExt_cases :
    goBase "a/b.txt" = "b.txt" ∧ goBase "abc" = "abc" ∧
    goDir "a/b.txt" = "a" ∧ goDir "abc" = "." ∧
    goExt "a.txt" = ".txt" ∧ goExt "abc" = "" ∧ goExt ".bashrc" = ".bashrc" := by decide

theorem applyNumbering_cases :
    applyNumbering "img_%03d" 7 = "img_007" ∧
    applyNumbering "%d-%03d" 5 = "5-5" ∧
    applyNumbering "a%3xb" 5 = "a%3xb" ∧
    applyNumbering "%3%d" 4 = "%34" ∧
    applyNumbering "%10d" 7 = "         7" ∧
    applyNumbering "%03d" (-5) = "-05" ∧
    applyNumbering "no token" 1 = "no token" := by decide

theorem detectConflicts_cases :
    (detectConflicts (statFS {"a", "b"}) false
        [⟨".", "a", "b", false⟩, ⟨".", "b", "c", false⟩]).existsB = [⟨["a"], "b"⟩] ∧
    (detectConflicts (fun _ => .notExist) true
        [⟨"/d", "a", ".", false⟩, ⟨"/d", "b", "a", false⟩]).matchList =
      [⟨"/d", "a", "a", false⟩, ⟨"/d", "b", "a", false⟩] ∧
    (detectConflicts (fun _ => .notExist) false
        [⟨".", "a", "c", false⟩, ⟨".", "b", "c", false⟩]).overB =
      [⟨["a", "b"], "c"⟩] := by decide

theorem replaceAllLit_cases :
    replaceAllLit "ababa" "aba" "x" = "xba" ∧ replaceAllLit "ab" "" "-" = "-a-b-" ∧
    filenameWithoutExtension "photo.jpg" = "photo" := by decide

theorem replaceExifVariables_cases :
    replaceExifVariables none { isoSpeedRatings := [200] } "\x7b\x7bexif.iso\x7d\x7d" =
        .ok "ISO200" ∧
    replaceExifVariables none {} "a_\x7b\x7bexif.make\x7d\x7db" = .ok "a_b" ∧
    replaceExifVariables none { imageWidth := [64], imageLength := [32] }
        "\x7b\x7bexif.wh\x7d\x7d" = .ok "64x32" ∧
    replaceExifVariables (some "open failed") {} "x" = .error "open failed" :=
  ⟨rfl, rfl, rfl, rfl⟩

theorem applyOp_undoOp_cases :
    (applyOp ⟨true, false, "log"⟩ {"a", "b"}
        [⟨".", "a", "x", false⟩, ⟨".", "b", "y", false⟩]).fs = {"x", "y"} ∧
    (undoOp ⟨true, false, "log"⟩ {"x", "y"}
        [⟨".", "a", "x", false⟩, ⟨".", "b", "y", false⟩]).fs = {"a", "b"} := by decide

theorem replaceGo_cases :
    replaceGo
        { stringMode := false, ignoreCase := false, ignoreExt := false,
          findString := "", replaceString := "", startNumber := 2,
          regexReplace := fun _ => "img_%03d", hv := fun s _ => .ok s } 0
        [⟨".", "a.jpg", "", false⟩, ⟨".", "b.jpg", "", false⟩] =
      .ok [⟨".", "a.jpg", "img_002", false⟩, ⟨".", "b.jpg", "img_003", false⟩] := rfl

end F2
